import Mathlib

/-!
Verification development for the `sentry-extractor` browser extension.

The development embeds, as executable Lean definitions, the pure fragment of
the repository's source:

* `src/utils/formatter.ts` — the Jira-markdown formatter (`formatToJiraMarkdown`
  and its helpers);
* `src/utils/extractor/tags.ts` — the tags extractor and its per-pass cache;
* the structured-value parser of `src/utils/extractor/additional-data.ts`
  (`extractStructuredValue`, `parseValueElement`, `parseCollapsibleValue`, …);
* the aggregator `extractAllData` of `src/utils/extractor/http-request.ts`.

JavaScript idioms are embedded explicitly: string truthiness (the empty string
is falsy), `||` defaulting, `String.prototype.substring`, `Array.prototype.slice`
with a negative index, `Array.prototype.join`, insertion-ordered plain objects
(as association lists), and `parseFloat`.  Strings are modelled at the level of
their character lists; the UTF-16 code-unit/code-point distinction and IEEE-754
rounding of `parseFloat` are idealised (no claim below depends on either).
The DOM is modelled as a finite tree of elements with a tag name, attributes
and text; `querySelector`/`querySelectorAll` are pre-order searches over
descendants, exactly the part of CSS selection the embedded code uses.
-/

/-! ### JavaScript string and object primitives -/

/-- JS string truthiness: a string is truthy iff it is nonempty. -/
def jsTruthyS (s : String) : Bool := s ≠ ""

/-- JS truthiness of a `string | null | undefined` value. -/
def jsTruthyO (o : Option String) : Bool :=
  match o with
  | some s => s ≠ ""
  | none => false

/-- JS `a || b` on strings: `b` when `a` is falsy (empty). -/
def jsOrS (a b : String) : String := if a ≠ "" then a else b

/-- JS `a || b` where `a : string | null | undefined` and `b` a string. -/
def jsOrO (a : Option String) (b : String) : String :=
  match a with
  | some s => if s ≠ "" then s else b
  | none => b

/-- JS `s.substring(0, n)` (written over the character list). -/
def jsSubstrN (s : String) (n : Nat) : String := ⟨s.data.take n⟩

/-- Character-list trim (JS `String.prototype.trim`). -/
def trimChars (l : List Char) : List Char :=
  ((l.dropWhile Char.isWhitespace).reverse.dropWhile Char.isWhitespace).reverse

/-- JS `s.trim()`. -/
def jsTrim (s : String) : String := ⟨trimChars s.data⟩

/-- JS `Array.prototype.join(sep)`. -/
def joinWith (sep : String) : List String → String
  | [] => ""
  | [a] => a
  | a :: b :: rest => a ++ sep ++ joinWith sep (b :: rest)

/-- Split a character list on a separator character (JS `s.split(".")` for a
one-character separator). -/
def splitOnChar (c : Char) : List Char → List (List Char)
  | [] => [[]]
  | x :: rest =>
    match splitOnChar c rest with
    | [] => if x = c then [[], []] else [[x]]
    | h :: t => if x = c then [] :: h :: t else (x :: h) :: t

/-- JS `s.split(".")`. -/
def jsSplitDot (s : String) : List String :=
  (splitOnChar '.' s.data).map fun l => ⟨l⟩

/-- JS `s.includes(".")`. -/
def jsIncludesDot (s : String) : Bool := s.data.contains '.'

/-- A JS plain object with string values, as an insertion-ordered association
list (`Object.entries` order).  The model ignores the prototype chain, so
exotic keys such as `"constructor"` behave as ordinary keys. -/
abbrev StrMap := List (String × String)

/-- JS property read `m[k]` (`none` models `undefined`). -/
def jsObjGet (m : StrMap) (k : String) : Option String :=
  match m with
  | [] => none
  | (k', v) :: rest => if k' = k then some v else jsObjGet rest k

/-- JS property write `m[k] = v`: overwrites in place, else appends
(insertion order is preserved). -/
def jsObjSet (m : StrMap) (k v : String) : StrMap :=
  match m with
  | [] => [(k, v)]
  | (k', v') :: rest =>
    if k' = k then (k', v) :: rest else (k', v') :: jsObjSet rest k v

/-- Nested-object variant used by the tag grouping code:
`grouped : Record<string, Record<string, string>>`. -/
def jsObjSet2 (m : List (String × StrMap)) (k : String) (v : StrMap) :
    List (String × StrMap) :=
  match m with
  | [] => [(k, v)]
  | (k', v') :: rest =>
    if k' = k then (k', v) :: rest else (k', v') :: jsObjSet2 rest k v

/-- Read from the nested-object map. -/
def jsObjGet2 (m : List (String × StrMap)) (k : String) : Option StrMap :=
  match m with
  | [] => none
  | (k', v) :: rest => if k' = k then some v else jsObjGet2 rest k

/-! ### The data model (`src/utils/types.ts`) -/

/-- `interface StackFrame` of `types.ts`. -/
structure StackFrame where
  filename : String
  lineNo : String
  function : String
  context : String
  isSystem : Bool
  isExpanded : Bool
deriving Repr, DecidableEq

/-- `interface StackTrace` of `types.ts` (all fields optional). -/
structure StackTrace where
  frames : Option (List StackFrame) := none
  raw : Option String := none
  exceptionValue : Option String := none
deriving Repr, DecidableEq

/-- `interface Breadcrumb` of `types.ts` (all fields optional). -/
structure Breadcrumb where
  category : Option String := none
  type : Option String := none
  message : Option String := none
  timestamp : Option String := none
  level : Option String := none
  raw : Option String := none
deriving Repr, DecidableEq

/-- `interface Timestamps` of `types.ts`. -/
structure Timestamps where
  firstSeen : Option String := none
  lastSeen : Option String := none
deriving Repr, DecidableEq

/-- A JS number as produced by `parseFloat`: a finite value (idealised as an
exact rational) or a signed infinity.  `parseFloat` never yields `NaN` as a
*number*; failure is `Option.none` at the parser's type. -/
inductive JsNumber where
  | rat (q : ℚ)
  | inf (neg : Bool)
deriving Repr, DecidableEq

/-- The `unknown` values produced by the structured-value parser
(§ `additional-data.ts`): JSON-like trees. -/
inductive JsValue where
  | str (s : String)
  | num (n : JsNumber)
  | bool (b : Bool)
  | null
  | obj (fields : List (String × JsValue))
  | arr (elems : List JsValue)
deriving Repr

/-- `interface SentryIssueData` of `types.ts`.  Fields typed `string` in TS
are `String`; fields typed `T | null` (or optional) are `Option`. -/
structure SentryIssueData where
  url : String
  projectName : String := ""
  issueId : String := ""
  shortId : Option String := none
  title : String
  errorMessage : Option String := none
  route : Option String := none
  eventCount : String := ""
  userCount : String := ""
  environment : Option String := none
  release : Option String := none
  priority : Option String := none
  status : Option String := none
  level : Option String := none
  timestamps : Option Timestamps := none
  userInfo : Option StrMap := none
  stackTrace : Option StackTrace := none
  breadcrumbs : Option (List Breadcrumb) := none
  httpRequest : Option StrMap := none
  tags : Option StrMap := none
  contexts : Option (List (String × StrMap)) := none
  additionalData : Option (List (String × JsValue)) := none

/-- `interface FormatOptions` of `types.ts` (all fields optional booleans). -/
structure FormatOptions where
  includeBreadcrumbs : Option Bool := none
  includeContexts : Option Bool := none
  includeTags : Option Bool := none

/-! ### The formatter (`src/utils/formatter.ts`) -/

/-- `formatKeyValue` (formatter.ts:14): bullet with a bold key, empty string
for a `null`/`undefined` value. -/
def formatKeyValue (key : String) (value : Option String) : String :=
  match value with
  | none => ""
  | some v => "- **" ++ key ++ ":** " ++ v

/-- `formatAsList` (formatter.ts:20), typed at its call sites
(`Record<string, string>`): a bullet list.  The `typeof value === "object"`
branch of the source is unreachable for string values. -/
def formatAsList (obj : Option StrMap) : String :=
  match obj with
  | none => ""
  | some m =>
    if m.length = 0 then ""
    else m.foldl (fun acc kv => acc ++ "- **" ++ kv.1 ++ ":** " ++ kv.2 ++ "\n") ""

/-- The grouping pass of `formatTagsNested` (formatter.ts:39-48): dotted keys
go to `grouped[first-segment][rest]`, others to `standalone`. -/
def tagsPartition (entries : StrMap) :
    List (String × StrMap) × StrMap :=
  entries.foldl
    (fun acc kv =>
      let (grouped, standalone) := acc
      if jsIncludesDot kv.1 then
        match jsSplitDot kv.1 with
        | [] => (grouped, standalone)
        | p :: rest =>
          let subKey := joinWith "." rest
          let cur := (jsObjGet2 grouped p).getD []
          (jsObjSet2 grouped p (jsObjSet cur subKey kv.2), standalone)
      else (grouped, jsObjSet standalone kv.1 kv.2))
    ([], [])

/-- The output pass of `formatTagsNested` (formatter.ts:50-72): standalone keys
first (combined with their dotted children when present), then synthetic
parents for grouped keys without a standalone entry. -/
def tagsRender (grouped : List (String × StrMap)) (standalone : StrMap) :
    String :=
  let part1 := standalone.foldl
    (fun acc kv =>
      match jsObjGet2 grouped kv.1 with
      | some sub =>
        acc ++ "- **" ++ kv.1 ++ ":** " ++ kv.2 ++ "\n" ++
          sub.foldl (fun a s => a ++ "  - " ++ s.1 ++ ": " ++ s.2 ++ "\n") ""
      | none => acc ++ "- **" ++ kv.1 ++ ":** " ++ kv.2 ++ "\n")
    ""
  let outputted := standalone.filter (fun kv => (jsObjGet2 grouped kv.1).isSome)
  let part2 := grouped.foldl
    (fun acc g =>
      if (outputted.any fun kv => kv.1 = g.1) then acc
      else
        acc ++ "- **" ++ g.1 ++ ":**\n" ++
          g.2.foldl (fun a s => a ++ "  - " ++ s.1 ++ ": " ++ s.2 ++ "\n") "")
    ""
  part1 ++ part2

/-- `formatTagsNested` (formatter.ts:32): dot-prefix grouping of tags. -/
def formatTagsNested (tags : Option StrMap) : String :=
  match tags with
  | none => ""
  | some m =>
    if m.length = 0 then ""
    else
      let (grouped, standalone) := tagsPartition m
      tagsRender grouped standalone

/-! #### JSON.stringify(·, null, 2) -/

/-- JSON string escaping (the cases `JSON.stringify` emits for the characters
that occur in this development; other control characters are left as-is). -/
def jsonEscape (s : String) : String :=
  ⟨s.data.foldr
    (fun c acc =>
      if c = '"' then '\\' :: '"' :: acc
      else if c = '\\' then '\\' :: '\\' :: acc
      else if c = '\n' then '\\' :: 'n' :: acc
      else if c = '\t' then '\\' :: 't' :: acc
      else if c = '\r' then '\\' :: 'r' :: acc
      else c :: acc)
    []⟩

/-- Render a `JsNumber` as `JSON.stringify` does: infinities become `null`;
finite values print exactly (integers as integers; the non-integer case is an
idealised exact-rational print, unobserved by any claim). -/
def jsonNumber (n : JsNumber) : String :=
  match n with
  | .inf _ => "null"
  | .rat q => if q.den = 1 then toString q.num else toString q

mutual

/-- `JSON.stringify(v, null, 2)` on the JSON-like trees of this model
(`ind` is the current indentation depth). -/
def jsonStringifyV (ind : Nat) : JsValue → String
  | .str s => "\"" ++ jsonEscape s ++ "\""
  | .num n => jsonNumber n
  | .bool b => if b then "true" else "false"
  | .null => "null"
  | .obj fields =>
    match fields with
    | [] => "\x7b\x7d"
    | _ =>
      "\x7b\n" ++ joinWith ",\n" (jsonFieldLines (ind + 1) fields) ++ "\n" ++
        String.mk (List.replicate (2 * ind) ' ') ++ "\x7d"
  | .arr elems =>
    match elems with
    | [] => "[]"
    | _ =>
      "[\n" ++ joinWith ",\n" (jsonElemLines (ind + 1) elems) ++ "\n" ++
        String.mk (List.replicate (2 * ind) ' ') ++ "]"

/-- One indented `"key": value` line per object field. -/
def jsonFieldLines (ind : Nat) : List (String × JsValue) → List String
  | [] => []
  | (k, v) :: rest =>
    (String.mk (List.replicate (2 * ind) ' ') ++ "\"" ++ jsonEscape k ++ "\": " ++
      jsonStringifyV ind v) :: jsonFieldLines ind rest

/-- One indented value line per array element. -/
def jsonElemLines (ind : Nat) : List JsValue → List String
  | [] => []
  | v :: rest =>
    (String.mk (List.replicate (2 * ind) ' ') ++ jsonStringifyV ind v) ::
      jsonElemLines ind rest

end

/-- `formatAdditionalData` (formatter.ts:77): a fenced `json` block.  The
`catch` fallback of the source only fires on circular structures, which the
tree type of this model cannot express, so the `try` branch is total here. -/
def formatAdditionalData (data : Option (List (String × JsValue))) : String :=
  match data with
  | none => ""
  | some fields =>
    if fields.length = 0 then ""
    else "```json\n" ++ jsonStringifyV 0 (.obj fields) ++ "\n```"

/-! #### Stack traces and breadcrumbs -/

/-- The exception headline of `formatStackTrace` (formatter.ts:92-94). -/
def excHeader (exceptionValue : Option String) : String :=
  if jsTruthyO exceptionValue then
    "**Exception:** " ++ exceptionValue.getD "" ++ "\n\n"
  else ""

/-- One enumerated frame line (body of the `forEach` at formatter.ts:99-109),
`index` zero-based as in the source. -/
def frameLine (index : Nat) (frame : StackFrame) : String :=
  let location :=
    if jsTruthyS frame.filename then
      frame.filename ++ (if jsTruthyS frame.lineNo then ":" ++ frame.lineNo else "")
    else "unknown"
  let func := jsOrS frame.function "<anonymous>"
  let marker := if frame.isSystem then "  " else "→ "
  marker ++ toString (index + 1) ++ ". " ++ func ++ " at " ++ location ++ "\n" ++
    (if jsTruthyS frame.context then "      " ++ jsSubstrN frame.context 200 ++ "\n"
     else "")

/-- `formatStackTrace` (formatter.ts:89): exception headline, then either the
raw fenced block or the enumerated frame listing — the `raw` branch is tested
first. -/
def formatStackTrace (stackTrace : Option StackTrace) : String :=
  match stackTrace with
  | none => ""
  | some st =>
    excHeader st.exceptionValue ++
      (if jsTruthyO st.raw then "```\n" ++ st.raw.getD "" ++ "\n```"
       else
         match st.frames with
         | some frames =>
           if frames.length > 0 then
             "```\n" ++
               ((frames.enum.map fun p => frameLine p.1 p.2).foldl (· ++ ·) "") ++
               "```"
           else ""
         | none => "")

/-- The raw-fallback guard of `formatBreadcrumbs` (formatter.ts:118):
a one-element list whose sole entry has a truthy `raw`. -/
def isRawFallback (breadcrumbs : List Breadcrumb) : Bool :=
  match breadcrumbs with
  | [b] => jsTruthyO b.raw
  | _ => false

/-- The part of a breadcrumb line before the message (formatter.ts:124-128). -/
def bcLineHead (bc : Breadcrumb) : String :=
  let time := jsOrO bc.timestamp ""
  let category := jsOrO bc.category ""
  let level := jsOrO bc.type (jsOrO bc.level "")
  "- " ++ (if jsTruthyS time then "[" ++ time ++ "]" else "") ++ " " ++
    (if jsTruthyS category then "**" ++ category ++ "**" else "") ++ " " ++
    (if jsTruthyS level then "(" ++ level ++ ")" else "") ++ " "

/-- One breadcrumb bullet line (body of the `forEach` at formatter.ts:123-129);
the message is `substring(0, 100)`-truncated. -/
def breadcrumbLine (bc : Breadcrumb) : String :=
  bcLineHead bc ++
    (match bc.message with
     | some m => if m ≠ "" then jsSubstrN m 100 else ""
     | none => "") ++ "\n"

/-- JS `breadcrumbs.slice(-15)` (formatter.ts:122). -/
def jsSliceLast15 (l : List Breadcrumb) : List Breadcrumb :=
  l.drop (l.length - 15)

/-- `formatBreadcrumbs` (formatter.ts:116). -/
def formatBreadcrumbs (breadcrumbs : Option (List Breadcrumb)) : String :=
  match breadcrumbs with
  | none => ""
  | some bcs =>
    if bcs.length = 0 then ""
    else if isRawFallback bcs then
      "```\n" ++ (bcs.headD {}).raw.getD "" ++ "\n```"
    else
      ((jsSliceLast15 bcs).map breadcrumbLine).foldl (· ++ ·) ""

/-- `formatContexts` (formatter.ts:134): one bold-named sub-list per context
card (the `typeof contextData === "object"` test always holds at this type). -/
def formatContexts (contexts : Option (List (String × StrMap))) : String :=
  match contexts with
  | none => ""
  | some cs =>
    if cs.length = 0 then ""
    else
      cs.foldl
        (fun acc c =>
          if c.2.length > 0 then
            acc ++ "\n**" ++ c.1 ++ ":**\n" ++ formatAsList (some c.2)
          else acc)
        ""

/-! #### The main formatter -/

/-- The resolved value of one include-option (formatter.ts:156-161):
`options.x !== false` computed first, then overridden by the spread of
`options` when the field is present — so the effective value is the field's
own boolean when present, and `true` when absent. -/
def resolvedInclude (o : Option Bool) : Bool := o.getD true

/-- The header title (formatter.ts:164-166): `shortId`-prefixed when that
field is truthy. -/
def headerTitle (data : SentryIssueData) : String :=
  if jsTruthyO data.shortId then data.shortId.getD "" ++ ": " ++ data.title
  else data.title

/-- `data.timestamps?.firstSeen` (optional chaining). -/
def tsFirstSeen (data : SentryIssueData) : Option String :=
  data.timestamps.bind (·.firstSeen)

/-- `data.timestamps?.lastSeen` (optional chaining). -/
def tsLastSeen (data : SentryIssueData) : Option String :=
  data.timestamps.bind (·.lastSeen)

/-- The "Issue Overview" bullet lines (formatter.ts:178-194): one line per
truthy scalar field, in the fixed source order. -/
def overviewLines (data : SentryIssueData) : List String :=
  (if jsTruthyS data.projectName then [formatKeyValue "Project" (some data.projectName)] else []) ++
  (if jsTruthyO data.shortId then [formatKeyValue "Issue ID" data.shortId]
   else if jsTruthyS data.issueId then [formatKeyValue "Issue ID" (some data.issueId)] else []) ++
  (if jsTruthyO data.status then [formatKeyValue "Status" data.status] else []) ++
  (if jsTruthyO data.priority then [formatKeyValue "Priority" data.priority] else []) ++
  (if jsTruthyO data.level then [formatKeyValue "Level" data.level] else []) ++
  (if jsTruthyO data.environment then [formatKeyValue "Environment" data.environment] else []) ++
  (if jsTruthyO data.release then [formatKeyValue "Release" data.release] else []) ++
  (if jsTruthyS data.eventCount then [formatKeyValue "Events" (some data.eventCount)] else []) ++
  (if jsTruthyS data.userCount then [formatKeyValue "Users Affected" (some data.userCount)] else []) ++
  (if jsTruthyO data.route then [formatKeyValue "Route/URL" data.route] else []) ++
  (if jsTruthyO (tsFirstSeen data) then [formatKeyValue "First Seen" (tsFirstSeen data)] else []) ++
  (if jsTruthyO (tsLastSeen data) then [formatKeyValue "Last Seen" (tsLastSeen data)] else [])

/-- `data.breadcrumbs?.length` truthiness (formatter.ts:203). -/
def hasBreadcrumbs (data : SentryIssueData) : Bool :=
  match data.breadcrumbs with
  | some l => l.length ≠ 0
  | none => false

/-- The full line list built by `formatToJiraMarkdown` (formatter.ts:163-239);
`today` stands for `new Date().toISOString().split("T")[0]`, the only
environmental input of the function. -/
def formatLines (data : SentryIssueData) (options : FormatOptions)
    (today : String) : List String :=
  ["## " ++ headerTitle data, "",
   "[View in Sentry](" ++ data.url ++ ")", "",
   "---", "",
   "### Issue Overview", ""] ++
  overviewLines data ++ [""] ++
  (match data.errorMessage with
   | some msg =>
     if msg ≠ "" then ["### Error Message", "", "```", msg, "```", ""] else []
   | none => []) ++
  (match data.stackTrace with
   | some st => ["### Stack Trace", "", formatStackTrace (some st), ""]
   | none => []) ++
  (if resolvedInclude options.includeBreadcrumbs && hasBreadcrumbs data then
     ["### Breadcrumbs (" ++
        toString ((data.breadcrumbs.getD []).length) ++ " entries)", "",
      formatBreadcrumbs data.breadcrumbs, ""]
   else []) ++
  (match data.httpRequest with
   | some m =>
     if m.length > 0 then ["### HTTP Request", "", formatAsList (some m), ""] else []
   | none => []) ++
  (match data.userInfo with
   | some m =>
     if m.length > 0 then ["### User Information", "", formatAsList (some m), ""] else []
   | none => []) ++
  (if resolvedInclude options.includeTags then
     match data.tags with
     | some m =>
       if m.length > 0 then ["### Tags", "", formatTagsNested (some m), ""] else []
     | none => []
   else []) ++
  (if resolvedInclude options.includeContexts then
     match data.contexts with
     | some cs =>
       if cs.length > 0 then ["### Contexts", "", formatContexts (some cs), ""] else []
     | none => []
   else []) ++
  (match data.additionalData with
   | some a =>
     if a.length > 0 then
       ["### Additional Data", "", formatAdditionalData (some a), ""]
     else []
   | none => []) ++
  ["---", "*Extracted from Sentry on " ++ today ++ "*"]

/-- `formatToJiraMarkdown` (formatter.ts:152): the joined document.  The
function is total — the "never throws" half of the spec's formatter property
is the existence of this definition. -/
def formatToJiraMarkdown (data : SentryIssueData) (options : FormatOptions)
    (today : String) : String :=
  joinWith "\n" (formatLines data options today)

/-! ### Helper lemmas and spec-side notions -/

/-- `joinWith` on a list with at least two elements peels off the head. -/
theorem joinWith_cons_of_ne_nil (sep a : String) (l : List String) (h : l ≠ []) :
    joinWith sep (a :: l) = a ++ sep ++ joinWith sep l := by
  cases l with
  | nil => exact absurd rfl h
  | cons b t => rfl

/-- `splitOnChar` never produces the empty list. -/
theorem splitOnChar_ne_nil (c : Char) (l : List Char) : splitOnChar c l ≠ [] := by
  match l with
  | [] => simp [splitOnChar]
  | x :: rest =>
    rw [splitOnChar]
    rcases h : splitOnChar c rest with _ | ⟨hh, t⟩
    · by_cases hx : x = c <;> simp [hx]
    · by_cases hx : x = c <;> simp [hx]

/-- Splitting a separator-free list yields that list alone. -/
theorem splitOnChar_not_mem (c : Char) (A : List Char) (h : c ∉ A) :
    splitOnChar c A = [A] := by
  induction A with
  | nil => rfl
  | cons x rest ih =>
    have hx : x ≠ c := by intro he; exact h (he ▸ List.mem_cons_self x rest)
    have hr : c ∉ rest := fun hm => h (List.mem_cons_of_mem x hm)
    rw [splitOnChar, ih hr]
    simp [hx]

/-- Splitting at the first separator peels off the prefix. -/
theorem splitOnChar_append_sep (c : Char) (A B : List Char) (hA : c ∉ A) :
    splitOnChar c (A ++ c :: B) = A :: splitOnChar c B := by
  induction A with
  | nil =>
    simp only [List.nil_append]
    rw [splitOnChar]
    rcases h : splitOnChar c B with _ | ⟨hh, t⟩
    · exact absurd h (splitOnChar_ne_nil c B)
    · simp
  | cons x rest ih =>
    have hx : x ≠ c := by intro he; exact hA (he ▸ List.mem_cons_self x rest)
    have hr : c ∉ rest := fun hm => hA (List.mem_cons_of_mem x hm)
    simp only [List.cons_append]
    rw [splitOnChar, ih hr]
    simp [hx]

/-- Splitting a dotted key `a.sub` with dot-free halves yields `[a, sub]`. -/
theorem jsSplitDot_combined (a sub : String) (hA : ¬ a.data.contains '.')
    (hS : ¬ sub.data.contains '.') :
    jsSplitDot (a ++ "." ++ sub) = [a, sub] := by
  have hA' : '.' ∉ a.data := by simpa using hA
  have hS' : '.' ∉ sub.data := by simpa using hS
  have hdata : (a ++ "." ++ sub).data = a.data ++ '.' :: sub.data := by
    simp [String.data_append]
  rw [jsSplitDot, hdata, splitOnChar_append_sep _ _ _ hA',
    splitOnChar_not_mem _ _ hS']
  rfl

/-- Well-formedness of an `IssueRecord` for the formatter claims: a *present*
`shortId` is a nonempty string (TS code treats the empty string as absent, via
truthiness, so "present" means nonempty-present). -/
def WellFormedIssue (d : SentryIssueData) : Prop := d.shortId ≠ some ""

/-- Occurrence count of a pattern in a character list (every starting
position is inspected; used to count code-fence delimiters). -/
def countOccs (pat : List Char) : List Char → Nat
  | [] => 0
  | c :: rest => (if pat.isPrefixOf (c :: rest) then 1 else 0) + countOccs pat rest

/-- The backtick character (code point 96). -/
def tickChar : Char := Char.ofNat 96

/-- The three-backtick fence delimiter. -/
def tick3 : List Char := [tickChar, tickChar, tickChar]

/-- A minimal `IssueRecord`: every optional field absent, `title = "X"`,
`url = "https://x"` (required TS `string` fields that the formatter guards
with truthiness are the falsy empty string). -/
def minimalIssueRecord : SentryIssueData := { url := "https://x", title := "X" }

/-! ### Claim theorems -/

/-- **C1.** For every well-formed `IssueRecord`, every options value and every
date string, `formatToJiraMarkdown` is total (it is a Lean function, so it
never throws) and its output's first line is a `## ` header containing the
record's title, prefixed with `shortId` and `": "` exactly when `shortId` is
present. -/
theorem spec_c1 (d : SentryIssueData) (opts : FormatOptions) (today : String)
    (h : WellFormedIssue d) :
    ∃ rest, formatToJiraMarkdown d opts today =
      ("## " ++ (match d.shortId with
                 | some s => s ++ ": " ++ d.title
                 | none => d.title)) ++ "\n" ++ rest := by
  obtain ⟨t, ht⟩ : ∃ t, formatLines d opts today =
      ("## " ++ headerTitle d) :: "" :: t := ⟨_, rfl⟩
  refine ⟨joinWith "\n" ("" :: t), ?_⟩
  have e1 : formatToJiraMarkdown d opts today =
      ("## " ++ headerTitle d) ++ "\n" ++ joinWith "\n" ("" :: t) := by
    rw [formatToJiraMarkdown, ht]; rfl
  have hh : headerTitle d =
      (match d.shortId with
       | some s => s ++ ": " ++ d.title
       | none => d.title) := by
    cases hs : d.shortId with
    | none => simp [headerTitle, jsTruthyO, hs]
    | some s =>
      have hsne : s ≠ "" := by
        intro he; exact h (by rw [hs, he])
      simp [headerTitle, jsTruthyO, hs, hsne]
  rw [e1, hh]

/-- Witness for C1 at a concrete record with `shortId = "ABC-1"`. -/
theorem spec_c1_witness :
    WellFormedIssue { url := "https://x", title := "T", shortId := some "ABC-1" } ∧
    ∃ rest, formatToJiraMarkdown
        { url := "https://x", title := "T", shortId := some "ABC-1" } {} "2026-01-01" =
      ("## " ++ "ABC-1" ++ ": " ++ "T") ++ "\n" ++ rest := by
  constructor
  · simp [WellFormedIssue]
  · exact spec_c1 { url := "https://x", title := "T", shortId := some "ABC-1" } {}
      "2026-01-01" (by simp [WellFormedIssue])

/-- **C3.** Dotted tag keys nest under their prefix: for every dot-free key
`a` and sub-key `sub`, a standalone `a` plus a dotted `a.sub` render as one
combined bullet with the sub-bullet beneath, and a dotted `a.sub` alone
renders under a synthetic `**a:**` parent bullet.  Concretely,
`runtime`/`runtime.version` and `os.name` render as the claim states. -/
theorem spec_c3 :
    (∀ a sub v w : String, ¬ a.data.contains '.' → ¬ sub.data.contains '.' →
      formatTagsNested (some [(a, v), (a ++ "." ++ sub, w)]) =
        "- **" ++ a ++ ":** " ++ v ++ "\n" ++ "  - " ++ sub ++ ": " ++ w ++ "\n" ∧
      formatTagsNested (some [(a ++ "." ++ sub, w)]) =
        "- **" ++ a ++ ":**\n" ++ "  - " ++ sub ++ ": " ++ w ++ "\n") ∧
    formatTagsNested (some [("runtime", "node"), ("runtime.version", "18")]) =
      "- **runtime:** node\n  - version: 18\n" ∧
    formatTagsNested (some [("os.name", "linux")]) =
      "- **os:**\n  - name: linux\n" := by
  refine ⟨?_, rfl, rfl⟩
  intro a sub v w hA hS
  have hsplit := jsSplitDot_combined a sub hA hS
  have hIncK : jsIncludesDot (a ++ "." ++ sub) = true := by
    have hdata : (a ++ "." ++ sub).data = a.data ++ '.' :: sub.data := by
      simp [String.data_append]
    simp [jsIncludesDot, hdata]
  have hIncA : jsIncludesDot a = false := by simpa [jsIncludesDot] using hA
  constructor
  · have hpart : tagsPartition [(a, v), (a ++ "." ++ sub, w)] =
        ([(a, [(sub, w)])], [(a, v)]) := by
      rw [tagsPartition]
      simp only [List.foldl_cons, List.foldl_nil, hIncA, hIncK,
        Bool.false_eq_true, if_false, if_true, hsplit]
      simp [jsObjSet, jsObjSet2, jsObjGet2, joinWith]
    rw [formatTagsNested]
    simp only [List.length_cons, List.length_nil, hpart]
    rw [tagsRender]
    simp only [jsObjGet2]
    simp only [List.foldl_cons, List.foldl_nil]
    apply String.ext
    simp [String.data_append, List.append_assoc]
  · have hpart : tagsPartition [(a ++ "." ++ sub, w)] = ([(a, [(sub, w)])], []) := by
      rw [tagsPartition]
      simp only [List.foldl_cons, List.foldl_nil, hIncK, if_true, hsplit]
      simp [jsObjSet, jsObjSet2, jsObjGet2, joinWith]
    rw [formatTagsNested]
    simp only [List.length_cons, List.length_nil, hpart]
    rw [tagsRender]
    simp only [jsObjGet2]
    simp only [List.foldl_cons, List.foldl_nil]
    apply String.ext
    simp [String.data_append, List.append_assoc]

/-- Witness for C3's general part at `runtime`/`version`. -/
theorem spec_c3_witness :
    ¬ ("runtime" : String).data.contains '.' ∧
    ¬ ("version" : String).data.contains '.' ∧
    (formatTagsNested
        (some [("runtime", "node"), ("runtime" ++ "." ++ "version", "18")]) =
      "- **" ++ "runtime" ++ ":** " ++ "node" ++ "\n" ++ "  - " ++ "version" ++
        ": " ++ "18" ++ "\n" ∧
     formatTagsNested (some [("runtime" ++ "." ++ "version", "18")]) =
      "- **" ++ "runtime" ++ ":**\n" ++ "  - " ++ "version" ++ ": " ++ "18" ++
        "\n") := by
  refine ⟨by decide, by decide, ?_⟩
  exact spec_c3.1 "runtime" "version" "node" "18" (by decide) (by decide)

/-- **C5.** On the minimal record (all optional fields absent, `title="X"`,
`url="https://x"`), the output consists of exactly the header, the source
link, the horizontal rule, the "Issue Overview" header, and the footer — no
section header for any data section appears. -/
theorem spec_c5 (today : String) :
    formatToJiraMarkdown minimalIssueRecord {} today =
      joinWith "\n"
        ["## X", "",
         "[View in Sentry](https://x)", "",
         "---", "",
         "### Issue Overview", "", "",
         "---",
         "*Extracted from Sentry on " ++ today ++ "*"] ∧
    formatLines minimalIssueRecord {} today =
        ["## X", "",
         "[View in Sentry](https://x)", "",
         "---", "",
         "### Issue Overview", "", "",
         "---",
         "*Extracted from Sentry on " ++ today ++ "*"] := by
  constructor <;> rfl

/-- The source's `slice(-15)` (a drop) agrees with the mathematical
"last 15 entries, in original order" (reverse, take, reverse). -/
theorem jsSliceLast15_eq_last15 (l : List Breadcrumb) :
    jsSliceLast15 l = (l.reverse.take 15).reverse := by
  rw [jsSliceLast15, List.take_reverse, List.reverse_reverse]

/-- **C4.** A breadcrumb list longer than 15 entries renders exactly the last
15 entries, in their original order (the single-element raw fallback cannot
fire on such a list). -/
theorem spec_c4 (bcs : List Breadcrumb) (h : 15 < bcs.length) :
    formatBreadcrumbs (some bcs) =
      (((bcs.reverse.take 15).reverse).map breadcrumbLine).foldl (· ++ ·) "" ∧
    ((bcs.reverse.take 15).reverse).length = 15 := by
  have hne : bcs.length ≠ 0 := by omega
  have hfb : isRawFallback bcs = false := by
    match bcs with
    | [] => rfl
    | [b] => simp at h
    | a :: b :: t => rfl
  constructor
  · rw [formatBreadcrumbs]
    simp only [hne, hfb, if_false, if_neg hne]
    simp only [Bool.false_eq_true, if_false]
    rw [jsSliceLast15_eq_last15]
  · rw [List.length_reverse, List.length_take, List.length_reverse]
    omega

/-- Witness for C4: a concrete 16-entry list. -/
theorem spec_c4_witness :
    15 < (List.replicate 16 ({ message := some "m" } : Breadcrumb)).length ∧
    (formatBreadcrumbs (some (List.replicate 16 ({ message := some "m" } : Breadcrumb))) =
      ((((List.replicate 16 ({ message := some "m" } : Breadcrumb)).reverse.take 15).reverse).map
          breadcrumbLine).foldl (· ++ ·) "" ∧
     ((((List.replicate 16 ({ message := some "m" } : Breadcrumb)).reverse.take 15)).reverse).length = 15) := by
  refine ⟨by simp, spec_c4 _ (by simp)⟩

/-- **C10.** In the rendered breadcrumb bullet list, every breadcrumb message
is truncated to its first 100 characters: the rendered line is the line head
followed by exactly `message.data.take 100`, and a message of at most 100
characters appears unchanged. -/
theorem spec_c10 (bcs : List Breadcrumb) (h0 : bcs.length ≠ 0)
    (h1 : isRawFallback bcs = false) :
    formatBreadcrumbs (some bcs) =
      ((jsSliceLast15 bcs).map breadcrumbLine).foldl (· ++ ·) "" ∧
    ∀ bc : Breadcrumb, ∀ m : String, bc.message = some m →
      breadcrumbLine bc = bcLineHead bc ++ String.mk (m.data.take 100) ++ "\n" ∧
      (m.data.length ≤ 100 → String.mk (m.data.take 100) = m) := by
  constructor
  · rw [formatBreadcrumbs]
    simp only [h0, h1, if_false, if_neg h0]
    simp only [Bool.false_eq_true, if_false]
  · intro bc m hm
    constructor
    · rw [breadcrumbLine, hm]
      by_cases hme : m = ""
      · subst hme; rfl
      · simp [hme, jsSubstrN]
    · intro hlen
      have : m.data.take 100 = m.data := List.take_of_length_le hlen
      rw [this]

/-- Witness for C10: a 2-entry list whose second message has 105 characters
(truncated to 100) and whose first is short (unchanged). -/
theorem spec_c10_witness :
    ([({ message := some "hello" } : Breadcrumb),
      { message := some (String.mk (List.replicate 105 'a')) }] : List Breadcrumb).length ≠ 0 ∧
    isRawFallback
      [({ message := some "hello" } : Breadcrumb),
       { message := some (String.mk (List.replicate 105 'a')) }] = false ∧
    (formatBreadcrumbs
        (some [({ message := some "hello" } : Breadcrumb),
               { message := some (String.mk (List.replicate 105 'a')) }]) =
      ((jsSliceLast15
          [({ message := some "hello" } : Breadcrumb),
           { message := some (String.mk (List.replicate 105 'a')) }]).map
            breadcrumbLine).foldl (· ++ ·) "" ∧
     ∀ bc : Breadcrumb, ∀ m : String, bc.message = some m →
       breadcrumbLine bc = bcLineHead bc ++ String.mk (m.data.take 100) ++ "\n" ∧
       (m.data.length ≤ 100 → String.mk (m.data.take 100) = m)) := by
  refine ⟨by simp, rfl, spec_c10 _ (by simp) rfl⟩

/-- **C9.** Whenever the breadcrumb list is non-empty and breadcrumb rendering
is enabled, the formatted document contains the section header
`### Breadcrumbs (N entries)` with `N` the *full* list length (even when more
than 15 entries exist and only the last 15 are rendered beneath it). -/
theorem spec_c9 (d : SentryIssueData) (opts : FormatOptions) (today : String)
    (bcs : List Breadcrumb) (hb : d.breadcrumbs = some bcs) (hne : bcs ≠ [])
    (hinc : resolvedInclude opts.includeBreadcrumbs = true) :
    formatToJiraMarkdown d opts today = joinWith "\n" (formatLines d opts today) ∧
    ("### Breadcrumbs (" ++ toString bcs.length ++ " entries)") ∈
      formatLines d opts today := by
  refine ⟨rfl, ?_⟩
  have hhas : hasBreadcrumbs d = true := by
    simp [hasBreadcrumbs, hb, List.length_eq_zero, hne]
  simp only [formatLines, hb, hinc, hhas, Bool.and_self, if_true, Option.getD_some]
  simp [List.mem_append]

/-- Witness for C9 at a record with 16 breadcrumbs (more than are rendered). -/
theorem spec_c9_witness :
    ({ url := "https://x", title := "T",
       breadcrumbs := some (List.replicate 16 ({ message := some "m" } : Breadcrumb)) }
        : SentryIssueData).breadcrumbs =
      some (List.replicate 16 ({ message := some "m" } : Breadcrumb)) ∧
    (List.replicate 16 ({ message := some "m" } : Breadcrumb)) ≠ [] ∧
    resolvedInclude (({} : FormatOptions)).includeBreadcrumbs = true ∧
    (formatToJiraMarkdown
        { url := "https://x", title := "T",
          breadcrumbs := some (List.replicate 16 ({ message := some "m" } : Breadcrumb)) }
        {} "2026-01-01" =
      joinWith "\n"
        (formatLines
          { url := "https://x", title := "T",
            breadcrumbs := some (List.replicate 16 ({ message := some "m" } : Breadcrumb)) }
          {} "2026-01-01") ∧
     ("### Breadcrumbs (" ++
        toString (List.replicate 16 ({ message := some "m" } : Breadcrumb)).length ++
        " entries)") ∈
       formatLines
         { url := "https://x", title := "T",
           breadcrumbs := some (List.replicate 16 ({ message := some "m" } : Breadcrumb)) }
         {} "2026-01-01") := by
  refine ⟨rfl, by simp, rfl, spec_c9 _ _ _ _ rfl (by simp) rfl⟩

/-- A character other than a backtick at the head of a list contributes no
fence occurrence. -/
theorem countOccs_head_ne (c : Char) (hc : c ≠ tickChar) (L : List Char) :
    countOccs tick3 (c :: L) = countOccs tick3 L := by
  have hpf : tick3.isPrefixOf (c :: L) = false := by
    simp only [tick3, List.isPrefixOf, Bool.and_eq_false_iff]
    left
    simp [beq_eq_false_iff_ne]
    intro h; exact absurd h.symm hc
  rw [countOccs, hpf]
  simp

/-- Prepending a fence-free block that ends in a newline (or is empty) does
not change the fence count: no occurrence can straddle the trailing
newline. -/
theorem countOccs_ticks_append_endNl (A B : List Char) (hA : countOccs tick3 A = 0)
    (hend : A = [] ∨ A.getLast? = some '\n') :
    countOccs tick3 (A ++ B) = countOccs tick3 B := by
  have hTn : (tickChar == '\n') = false := by decide
  induction A with
  | nil => rfl
  | cons a A ih =>
    rw [countOccs] at hA
    have h01 : (if tick3.isPrefixOf (a :: A) then 1 else 0) = 0 := by omega
    have h02 : countOccs tick3 A = 0 := by omega
    have hlast : (a :: A).getLast? = some '\n' := by
      rcases hend with h | h
      · exact absurd h (by simp)
      · exact h
    match A, h01, h02, hlast with
    | [], _, _, hlast =>
      have ha : a = '\n' := by simpa using hlast
      subst ha
      simp only [List.cons_append, List.nil_append]
      rw [countOccs_head_ne '\n' (by decide)]
    | [x], _, _, hlast =>
      have hx : x = '\n' := by simpa using hlast
      subst hx
      have hpf : tick3.isPrefixOf (a :: '\n' :: B) = false := by
        simp only [tick3, List.isPrefixOf, hTn, Bool.false_and, Bool.and_false]
      simp only [List.cons_append, List.nil_append]
      rw [countOccs, hpf]
      simp only [Bool.false_eq_true, if_false, Nat.zero_add]
      rw [countOccs_head_ne '\n' (by decide)]
    | x :: y :: A', h01, h02, hlast =>
      have hw : tick3.isPrefixOf (a :: x :: y :: (A' ++ B)) =
          tick3.isPrefixOf (a :: x :: y :: A') := by
        simp [tick3, List.isPrefixOf]
      have hb : tick3.isPrefixOf (a :: x :: y :: A') = false := by
        rcases hh : tick3.isPrefixOf (a :: x :: y :: A') with _ | _
        · rfl
        · rw [hh] at h01; simp at h01
      have hlast' : (x :: y :: A').getLast? = some '\n' := by
        rwa [List.getLast?_cons_cons] at hlast
      simp only [List.cons_append]
      rw [countOccs, hw, hb]
      simp only [Bool.false_eq_true, if_false, Nat.zero_add]
      exact ih h02 (Or.inr hlast')

/-- Prepending a fence-free block to a newline-headed tail does not change
the fence count: no occurrence can straddle the leading newline. -/
theorem countOccs_ticks_append_nl (A B : List Char) (hA : countOccs tick3 A = 0) :
    countOccs tick3 (A ++ '\n' :: B) = countOccs tick3 ('\n' :: B) := by
  have hTn : (tickChar == '\n') = false := by decide
  induction A with
  | nil => rfl
  | cons a A ih =>
    rw [countOccs] at hA
    have h01 : (if tick3.isPrefixOf (a :: A) then 1 else 0) = 0 := by omega
    have h02 : countOccs tick3 A = 0 := by omega
    match A, h01, h02 with
    | [], _, _ =>
      have hpf : tick3.isPrefixOf (a :: '\n' :: B) = false := by
        simp only [tick3, List.isPrefixOf, hTn, Bool.false_and, Bool.and_false]
      simp only [List.cons_append, List.nil_append]
      rw [countOccs, hpf]
      simp
    | [x], _, _ =>
      have hpf : tick3.isPrefixOf (a :: x :: '\n' :: B) = false := by
        simp only [tick3, List.isPrefixOf, hTn, Bool.false_and, Bool.and_false]
      simp only [List.cons_append, List.nil_append]
      rw [countOccs, hpf]
      simp only [Bool.false_eq_true, if_false, Nat.zero_add]
      have hpf2 : tick3.isPrefixOf (x :: '\n' :: B) = false := by
        simp only [tick3, List.isPrefixOf, hTn, Bool.false_and, Bool.and_false]
      rw [countOccs, hpf2]
      simp
    | x :: y :: A', h01, h02 =>
      have hw : tick3.isPrefixOf (a :: x :: y :: (A' ++ '\n' :: B)) =
          tick3.isPrefixOf (a :: x :: y :: A') := by
        simp [tick3, List.isPrefixOf]
      have hb : tick3.isPrefixOf (a :: x :: y :: A') = false := by
        rcases hh : tick3.isPrefixOf (a :: x :: y :: A') with _ | _
        · rfl
        · rw [hh] at h01; simp at h01
      simp only [List.cons_append]
      rw [countOccs, hw, hb]
      simp only [Bool.false_eq_true, if_false, Nat.zero_add]
      exact ih h02

/-- A fence-free block (ending in a newline or empty), then an opening fence
and newline, fence-free content, then a newline and a closing fence, contain
exactly two fence delimiters. -/
theorem countOccs_fenced_shape (E R : List Char) (hE : countOccs tick3 E = 0)
    (hEend : E = [] ∨ E.getLast? = some '\n') (hR : countOccs tick3 R = 0) :
    countOccs tick3
      (E ++ (tickChar :: tickChar :: tickChar :: '\n' :: (R ++ '\n' :: tick3))) = 2 := by
  have hTn : (tickChar == '\n') = false := by decide
  rw [countOccs_ticks_append_endNl _ _ hE hEend]
  have h1 : tick3.isPrefixOf
      (tickChar :: tickChar :: tickChar :: '\n' :: (R ++ '\n' :: tick3)) = true := by
    simp [tick3, List.isPrefixOf]
  have h2 : tick3.isPrefixOf (tickChar :: tickChar :: '\n' :: (R ++ '\n' :: tick3)) = false := by
    simp only [tick3, List.isPrefixOf, hTn, Bool.false_and, Bool.and_false]
  have h3 : tick3.isPrefixOf (tickChar :: '\n' :: (R ++ '\n' :: tick3)) = false := by
    simp only [tick3, List.isPrefixOf, hTn, Bool.false_and, Bool.and_false]
  rw [countOccs, h1, countOccs, h2, countOccs, h3,
    countOccs_head_ne '\n' (by decide), countOccs_ticks_append_nl _ _ hR,
    countOccs_head_ne '\n' (by decide)]
  have hfin : countOccs tick3 tick3 = 1 := by decide
  rw [hfin]
  simp

/-- The exception headline either is empty or ends in a newline. -/
theorem excHeader_data_endNl (o : Option String) :
    (excHeader o).data = [] ∨ (excHeader o).data.getLast? = some '\n' := by
  rw [excHeader]
  by_cases h : jsTruthyO o = true
  · rw [if_pos h]
    right
    rw [String.data_append, List.getLast?_append_of_ne_nil _ (by decide)]
    rfl
  · rw [if_neg h]
    left
    rfl

/-- **C2.** When `stackTrace.raw` is a nonempty string, the rendered stack
trace is the exception headline followed by exactly one fenced block holding
that raw text: the output is structurally `header ++ fence ++ raw ++ fence`,
it does not depend on `frames` at all (the two shapes are mutually exclusive
render paths, `raw` winning), and — provided the raw text and headline are
fence-free — the output contains exactly two fence delimiters, i.e. one
fenced block. -/
theorem spec_c2 (st : StackTrace) (r : String) (hr : st.raw = some r)
    (hne : r ≠ "") :
    formatStackTrace (some st) =
      excHeader st.exceptionValue ++ ("```\n" ++ r ++ "\n```") ∧
    (∀ fs, formatStackTrace (some { st with frames := fs }) =
      formatStackTrace (some st)) ∧
    (countOccs tick3 r.data = 0 →
      countOccs tick3 (excHeader st.exceptionValue).data = 0 →
      countOccs tick3 (formatStackTrace (some st)).data = 2) := by
  have htr : jsTruthyO (some r) = true := by
    simpa [jsTruthyO] using hne
  have he : formatStackTrace (some st) =
      excHeader st.exceptionValue ++ ("```\n" ++ r ++ "\n```") := by
    simp [formatStackTrace, htr, hr]
  refine ⟨he, ?_, ?_⟩
  · intro fs
    simp [formatStackTrace, htr, hr]
  · intro hRc hEc
    rw [he]
    have hdata : (excHeader st.exceptionValue ++ ("```\n" ++ r ++ "\n```")).data =
        (excHeader st.exceptionValue).data ++
          (tickChar :: tickChar :: tickChar :: '\n' :: (r.data ++ '\n' :: tick3)) := by
      simp only [String.data_append, List.append_assoc]
      rfl
    rw [hdata]
    exact countOccs_fenced_shape _ _ hEc (excHeader_data_endNl _) hRc

/-- Witness for C2 at a concrete stack trace with raw text `"boom"`. -/
theorem spec_c2_witness :
    ({ raw := some "boom", exceptionValue := some "E" } : StackTrace).raw =
      some "boom" ∧
    ("boom" : String) ≠ "" ∧
    (formatStackTrace (some { raw := some "boom", exceptionValue := some "E" }) =
       excHeader ({ raw := some "boom", exceptionValue := some "E" }
         : StackTrace).exceptionValue ++ ("```\n" ++ "boom" ++ "\n```") ∧
     (∀ fs, formatStackTrace
         (some { ({ raw := some "boom", exceptionValue := some "E" } : StackTrace)
                   with frames := fs }) =
       formatStackTrace (some { raw := some "boom", exceptionValue := some "E" })) ∧
     (countOccs tick3 ("boom" : String).data = 0 →
       countOccs tick3 (excHeader ({ raw := some "boom", exceptionValue := some "E" }
         : StackTrace).exceptionValue).data = 0 →
       countOccs tick3
         (formatStackTrace
           (some { raw := some "boom", exceptionValue := some "E" })).data = 2)) :=
  ⟨rfl, by decide, spec_c2 _ _ rfl (by decide)⟩

/-! ### The DOM model

A document is a finite tree of elements.  `ownText` is the text directly
contained in the element; `textContent` concatenates the whole subtree's text
in document order.  `querySelector`/`querySelectorAll` search the
*descendants* of the context node in pre-order (document order), which is the
only part of CSS selection the embedded extractors use; each concrete CSS
selector of the source is embedded as the corresponding predicate.  The child
list is a mutually-defined list type so that every traversal is structurally
recursive (and therefore computes by reduction). -/

mutual

/-- A DOM element: tag name, attributes, directly-contained text, children. -/
inductive Elem where
  | mk (tag : String) (attrs : List (String × String)) (ownText : String)
      (children : ElemList)

/-- A list of DOM elements (mutual with `Elem`). -/
inductive ElemList where
  | nil
  | cons (e : Elem) (es : ElemList)

end

/-- Convert an element list to an ordinary list. -/
def ElemList.toList : ElemList → List Elem
  | .nil => []
  | .cons e es => e :: es.toList

/-- Build an element list from an ordinary list. -/
def ElemList.ofList : List Elem → ElemList
  | [] => .nil
  | e :: es => .cons e (ElemList.ofList es)

/-- Element constructor taking an ordinary child list (for readable concrete
documents). -/
def elemOf (tag : String) (attrs : List (String × String)) (ownText : String)
    (children : List Elem) : Elem :=
  .mk tag attrs ownText (ElemList.ofList children)

/-- Tag name. -/
def Elem.tag : Elem → String
  | .mk t _ _ _ => t

/-- Attribute list. -/
def Elem.attrs : Elem → List (String × String)
  | .mk _ a _ _ => a

/-- Directly-contained text. -/
def Elem.ownText : Elem → String
  | .mk _ _ x _ => x

/-- Child elements. -/
def Elem.children : Elem → ElemList
  | .mk _ _ _ cs => cs

/-- `getAttribute` (`none` models `null`). -/
def Elem.getAttr (e : Elem) (name : String) : Option String :=
  (e.attrs.find? fun p => p.1 == name).map (·.2)

mutual

/-- `textContent`: the subtree's text in document order. -/
def Elem.textContent : Elem → String
  | .mk _ _ x cs => x ++ textContentList cs

/-- `textContent` over a forest. -/
def textContentList : ElemList → String
  | .nil => ""
  | .cons e es => e.textContent ++ textContentList es

end

/-- All descendants of the elements of a forest, in document order
(pre-order). -/
def descendantsList : ElemList → List Elem
  | .nil => []
  | .cons (.mk t a x cs) es =>
    .mk t a x cs :: (descendantsList cs ++ descendantsList es)

/-- All descendants of an element (the element itself excluded), in document
order. -/
def Elem.descendants (e : Elem) : List Elem := descendantsList e.children

/-- `querySelector`: first descendant satisfying the selector predicate. -/
def qsel (e : Elem) (p : Elem → Bool) : Option Elem := e.descendants.find? p

/-- `querySelectorAll`: all descendants satisfying the selector predicate, in
document order. -/
def qselAll (e : Elem) (p : Elem → Bool) : List Elem := e.descendants.filter p

/-- `[attr="v"]` attribute test. -/
def hasAttrVal (e : Elem) (a v : String) : Bool := e.getAttr a == some v

/-- `classList.contains(c)` (the `class` attribute split on spaces). -/
def classListContains (e : Elem) (c : String) : Bool :=
  ((splitOnChar ' ' (((e.getAttr "class").getD "").data)).map
    fun l => (⟨l⟩ : String)).contains c

/-- A descendant is strictly smaller than the forest it came from. -/
theorem sizeOf_lt_of_mem_descendantsList (l : ElemList) (e : Elem)
    (h : e ∈ descendantsList l) : sizeOf e < sizeOf l := by
  match l with
  | .nil => simp [descendantsList] at h
  | .cons (.mk t a x cs) es =>
    rw [descendantsList] at h
    rcases List.mem_cons.mp h with he | hrest
    · subst he
      simp <;> omega
    · rcases List.mem_append.mp hrest with hcs | hes
      · have := sizeOf_lt_of_mem_descendantsList cs e hcs
        simp <;> omega
      · have := sizeOf_lt_of_mem_descendantsList es e hes
        simp <;> omega

/-- The children list is strictly smaller than the element. -/
theorem sizeOf_children_lt (e : Elem) : sizeOf e.children < sizeOf e := by
  cases e
  simp [Elem.children] <;> omega

/-- A `querySelector` result is strictly smaller than the context element. -/
theorem sizeOf_lt_of_qsel {e e' : Elem} {p : Elem → Bool}
    (h : qsel e p = some e') : sizeOf e' < sizeOf e := by
  have hm : e' ∈ descendantsList e.children :=
    List.mem_of_find?_eq_some h
  have h1 := sizeOf_lt_of_mem_descendantsList e.children e' hm
  have h2 := sizeOf_children_lt e
  omega

/-- Converting to an ordinary list preserves `sizeOf`. -/
theorem sizeOf_toList (l : ElemList) : sizeOf l.toList = sizeOf l := by
  match l with
  | .nil => rfl
  | .cons e es =>
    have ih := sizeOf_toList es
    simp [ElemList.toList, ih] <;> omega

/-- A member of the (converted) child list is strictly smaller than the
parent element. -/
theorem sizeOf_lt_of_mem_children {e c : Elem} (h : c ∈ e.children.toList) :
    sizeOf c < sizeOf e := by
  have h1 := List.sizeOf_lt_of_mem h
  have h2 := sizeOf_toList e.children
  have h3 := sizeOf_children_lt e
  omega

/-! ### `parseFloat` and the structured-value parser
(`src/utils/extractor/additional-data.ts`) -/

/-- Decimal digit-run value. -/
def digitsToNat (l : List Char) : Nat :=
  l.foldl (fun acc c => acc * 10 + (c.toNat - 48)) 0

/-- JS `parseFloat`: skip leading whitespace, optional sign, then either
`Infinity` or a decimal literal (digits, optional fraction, optional
exponent — an `e` not followed by digits is ignored, as in JS).  `none`
models `NaN` (no valid numeric prefix); finite values are exact rationals. -/
def jsParseFloat (s : String) : Option JsNumber :=
  let l := s.data.dropWhile Char.isWhitespace
  let signAndRest : Bool × List Char :=
    match l with
    | '-' :: r => (true, r)
    | '+' :: r => (false, r)
    | _ => (false, l)
  let neg := signAndRest.1
  let l1 := signAndRest.2
  if ("Infinity".data).isPrefixOf l1 then some (.inf neg)
  else
    let intPart := l1.takeWhile Char.isDigit
    let r1 := l1.dropWhile Char.isDigit
    let fracAndRest : List Char × List Char :=
      match r1 with
      | '.' :: r => (r.takeWhile Char.isDigit, r.dropWhile Char.isDigit)
      | _ => ([], r1)
    let fracPart := fracAndRest.1
    let r2 := fracAndRest.2
    if intPart.isEmpty && fracPart.isEmpty then none
    else
      let mantissa : ℚ :=
        (digitsToNat intPart : ℚ) +
          (digitsToNat fracPart : ℚ) / ((10 : ℚ) ^ fracPart.length)
      let exp : ℤ :=
        match r2 with
        | c :: r3 =>
          if c = 'e' ∨ c = 'E' then
            let esignAndRest : Bool × List Char :=
              match r3 with
              | '-' :: rr => (true, rr)
              | '+' :: rr => (false, rr)
              | _ => (false, r3)
            let edig := esignAndRest.2.takeWhile Char.isDigit
            if edig.isEmpty then 0
            else if esignAndRest.1 then -(digitsToNat edig : ℤ)
            else (digitsToNat edig : ℤ)
          else 0
        | [] => 0
      let v : ℚ := mantissa * (10 : ℚ) ^ exp
      some (.rat (if neg then -v else v))

/-- Selector `[data-sentry-component="CollapsibleValue"]`. -/
def isCollapsibleValue (e : Elem) : Bool :=
  hasAttrVal e "data-sentry-component" "CollapsibleValue"

/-- Selector `[data-test-id="value-number"]`. -/
def isValueNumber (e : Elem) : Bool := hasAttrVal e "data-test-id" "value-number"

/-- Selector `[data-test-id="value-string"], pre.val-string`. -/
def isValueString (e : Elem) : Bool :=
  hasAttrVal e "data-test-id" "value-string" ||
    (e.tag == "pre" && classListContains e "val-string")

/-- Selector `[data-test-id="value-boolean"]`. -/
def isValueBoolean (e : Elem) : Bool :=
  hasAttrVal e "data-test-id" "value-boolean"

/-- Selector `[data-test-id="value-null"]`. -/
def isValueNull (e : Elem) : Bool := hasAttrVal e "data-test-id" "value-null"

/-- Selector `[data-test-id^="value-"]` (attribute prefix match). -/
def isValueAny (e : Elem) : Bool :=
  match e.getAttr "data-test-id" with
  | some s => ("value-".data).isPrefixOf s.data
  | none => false

/-- Selector `[data-sentry-element="ValueObjectKey"]`. -/
def isValueObjectKey (e : Elem) : Bool :=
  hasAttrVal e "data-sentry-element" "ValueObjectKey"

/-- `container.querySelector(':scope > div > div')`: the first `div`
grandchild reached through a `div` child, in document order. -/
def scopeDivDiv (c : Elem) : Option Elem :=
  (((c.children.toList.filter fun d => d.tag == "div").map
      fun d => d.children.toList.filter fun g => g.tag == "div").flatten).head?

/-- The content-container lookup of `parseObjectValue`/`parseArrayValue`
(additional-data.ts:121-124, 160-163): `CollapsibleContent`, else
`[role="group"]`, else `:scope > div > div` (JS `||` on nullable results). -/
def findContentDiv (c : Elem) : Option Elem :=
  match qsel c (hasAttrVal · "data-sentry-element" "CollapsibleContent") with
  | some d => some d
  | none =>
    match qsel c (fun e => e.getAttr "role" == some "group") with
    | some d => some d
    | none => scopeDivDiv c

/-- A `scopeDivDiv` result is a grandchild, hence strictly smaller. -/
theorem sizeOf_lt_of_scopeDivDiv {c cd : Elem} (h : scopeDivDiv c = some cd) :
    sizeOf cd < sizeOf c := by
  have hm : cd ∈ ((c.children.toList.filter fun d => d.tag == "div").map
      fun d => d.children.toList.filter fun g => g.tag == "div").flatten := by
    rw [scopeDivDiv] at h
    generalize hl : ((c.children.toList.filter fun d => d.tag == "div").map
      fun d => d.children.toList.filter fun g => g.tag == "div").flatten = l at h ⊢
    cases l with
    | nil => simp at h
    | cons b t =>
      simp at h
      subst h
      exact List.mem_cons_self _ _
  rcases List.mem_flatten.mp hm with ⟨sub, hsub, hcd⟩
  rcases List.mem_map.mp hsub with ⟨d, hd, hde⟩
  subst hde
  have h1 : cd ∈ d.children.toList := List.mem_of_mem_filter hcd
  have h2 : d ∈ c.children.toList := List.mem_of_mem_filter hd
  have h3 := sizeOf_lt_of_mem_children h1
  have h4 := sizeOf_lt_of_mem_children h2
  omega

/-- A content-container is strictly smaller than its collapsible. -/
theorem sizeOf_lt_of_findContentDiv {c cd : Elem}
    (h : findContentDiv c = some cd) : sizeOf cd < sizeOf c := by
  rw [findContentDiv] at h
  rcases h1 : qsel c (hasAttrVal · "data-sentry-element" "CollapsibleContent") with _ | d
  · rw [h1] at h
    rcases h2 : qsel c (fun e => e.getAttr "role" == some "group") with _ | d'
    · rw [h2] at h
      exact sizeOf_lt_of_scopeDivDiv h
    · rw [h2] at h
      cases h
      exact sizeOf_lt_of_qsel h2
  · rw [h1] at h
    cases h
    exact sizeOf_lt_of_qsel h1

mutual

/-- Structural element equality (standing in for JS reference equality in the
`nestedCollapsible !== container` guard; in a tree, a descendant is never
structurally equal to a strict ancestor of different size, so the guard is
vacuous here exactly as it is in the DOM). -/
def elemBeq : Elem → Elem → Bool
  | .mk t a x cs, .mk t' a' x' cs' =>
    t == t' && a == a' && x == x' && elemListBeq cs cs'

/-- Structural equality of element lists (mutual with `elemBeq`). -/
def elemListBeq : ElemList → ElemList → Bool
  | .nil, .nil => true
  | .cons e es, .cons f fs => elemBeq e f && elemListBeq es fs
  | _, _ => false

end

/-- `parseValueElement` (additional-data.ts:190): dispatch on `data-test-id`;
`value-number` parses with `parseFloat` and falls back to the trimmed text
when that yields `NaN`, so the result is never `NaN`. -/
def parseValueElement (valueEl : Elem) : JsValue :=
  let text := jsTrim valueEl.textContent
  match valueEl.getAttr "data-test-id" with
  | some "value-number" =>
    match jsParseFloat text with
    | none => .str text
    | some n => .num n
  | some "value-boolean" => .bool (text == "true")
  | some "value-null" => .null
  | _ => .str text

/-- JS object write for `unknown` values (`result[key] = v`). -/
def jsObjSetV (m : List (String × JsValue)) (k : String) (v : JsValue) :
    List (String × JsValue) :=
  match m with
  | [] => [(k, v)]
  | (k', v') :: rest =>
    if k' = k then (k', v) :: rest else (k', v') :: jsObjSetV rest k v

mutual

/-- `parseCollapsibleValue` (additional-data.ts:105): array when the first
non-whitespace character is `[`, else object. -/
def parseCollapsibleValue (c : Elem) : JsValue :=
  if (jsTrim c.textContent).data.head? == some '[' then parseArrayValue c
  else parseObjectValue c
termination_by (sizeOf c, 1)
decreasing_by
  all_goals simp_wf
  all_goals exact Prod.Lex.right _ (by omega)

/-- `parseObjectValue` (additional-data.ts:115): locate the content
container, collect `ValueObjectKey`-keyed children (nested collapsibles
recursively, plain `value-*` elements via `parseValueElement`); degrade to
the trimmed text when no container or no field is found. -/
def parseObjectValue (c : Elem) : JsValue :=
  match h : findContentDiv c with
  | none => .str (jsTrim c.textContent)
  | some cd =>
    let fields := parseObjectChildren c [] cd.children.toList
    if fields.length > 0 then .obj fields else .str (jsTrim c.textContent)
termination_by (sizeOf c, 0)
decreasing_by
  simp_wf
  exact Prod.Lex.left _ _ (by
    have h1 := sizeOf_lt_of_findContentDiv h
    have h2 := sizeOf_children_lt cd
    have h3 := sizeOf_toList cd.children
    omega)

/-- The field-collection loop of `parseObjectValue`
(additional-data.ts:130-147). -/
def parseObjectChildren (container : Elem) (acc : List (String × JsValue)) :
    List Elem → List (String × JsValue)
  | [] => acc
  | child :: rest =>
    let acc2 :=
      match qsel child isValueObjectKey with
      | none => acc
      | some keyEl =>
        let key := jsTrim keyEl.textContent
        match hn : qsel child isCollapsibleValue with
        | some nested =>
          if elemBeq nested container then
            match qsel child isValueAny with
            | some valueEl => jsObjSetV acc key (parseValueElement valueEl)
            | none => acc
          else jsObjSetV acc key (parseCollapsibleValue nested)
        | none =>
          match qsel child isValueAny with
          | some valueEl => jsObjSetV acc key (parseValueElement valueEl)
          | none => acc
    parseObjectChildren container acc2 rest
termination_by l => (sizeOf l, 0)
decreasing_by
  all_goals simp_wf
  · exact Prod.Lex.left _ _ (by
      have h1 := sizeOf_lt_of_qsel hn
      simp <;> omega)
  · exact Prod.Lex.left _ _ (by simp <;> omega)

/-- `parseArrayValue` (additional-data.ts:157): like the object case but
positional. -/
def parseArrayValue (c : Elem) : JsValue :=
  match h : findContentDiv c with
  | none => .str (jsTrim c.textContent)
  | some cd =>
    let elems := parseArrayChildren [] cd.children.toList
    if elems.length > 0 then .arr elems else .str (jsTrim c.textContent)
termination_by (sizeOf c, 0)
decreasing_by
  simp_wf
  exact Prod.Lex.left _ _ (by
    have h1 := sizeOf_lt_of_findContentDiv h
    have h2 := sizeOf_children_lt cd
    have h3 := sizeOf_toList cd.children
    omega)

/-- The element-collection loop of `parseArrayValue`
(additional-data.ts:169-182). -/
def parseArrayChildren (acc : List JsValue) : List Elem → List JsValue
  | [] => acc
  | child :: rest =>
    let acc2 :=
      match hn : qsel child isCollapsibleValue with
      | some nested => acc ++ [parseCollapsibleValue nested]
      | none =>
        match qsel child isValueAny with
        | some valueEl => acc ++ [parseValueElement valueEl]
        | none => acc
    parseArrayChildren acc2 rest
termination_by l => (sizeOf l, 0)
decreasing_by
  all_goals simp_wf
  · exact Prod.Lex.left _ _ (by
      have h1 := sizeOf_lt_of_qsel hn
      simp <;> omega)
  · exact Prod.Lex.left _ _ (by simp <;> omega)

end

/-- `extractStructuredValue` (additional-data.ts:72): classify by marker in
priority order — collapsible composite, number, string, boolean, null —
falling back to the element's trimmed text, or `null` when that is empty. -/
def extractStructuredValue (element : Elem) : JsValue :=
  match qsel element isCollapsibleValue with
  | some collapsible => parseCollapsibleValue collapsible
  | none =>
    match qsel element isValueNumber with
    | some numberEl =>
      let t := jsTrim numberEl.textContent
      match jsParseFloat t with
      | none => .str t
      | some n => .num n
    | none =>
      match qsel element isValueString with
      | some stringEl => .str (jsTrim stringEl.textContent)
      | none =>
        match qsel element isValueBoolean with
        | some boolEl => .bool (jsTrim boolEl.textContent == "true")
        | none =>
          match qsel element isValueNull with
          | some _ => .null
          | none =>
            let t := jsTrim element.textContent
            if t ≠ "" then .str t else .null

/-! ### The tags extractor (`src/utils/extractor/tags.ts`) -/

/-- Selector `section#tags, [data-test-id="tags"]`. -/
def isTagsSection (e : Elem) : Bool :=
  (e.tag == "section" && e.getAttr "id" == some "tags") ||
    hasAttrVal e "data-test-id" "tags"

/-- Selector `[data-test-id="tag-tree-row"]`. -/
def isTagTreeRow (e : Elem) : Bool := hasAttrVal e "data-test-id" "tag-tree-row"

/-- Selector `[data-test-id="highlight-tag-row"]`. -/
def isHighlightRow (e : Elem) : Bool :=
  hasAttrVal e "data-test-id" "highlight-tag-row"

/-- Selector `[data-sentry-element="TreeKey"]`. -/
def isTreeKey (e : Elem) : Bool := hasAttrVal e "data-sentry-element" "TreeKey"

/-- Selector `[data-sentry-element="TreeValue"]`. -/
def isTreeValue (e : Elem) : Bool :=
  hasAttrVal e "data-sentry-element" "TreeValue"

/-- `getTagValue` (dom-helpers): nested
`span[data-test-id="loaded-device-name"], a, [data-sentry-element="TagLinkText"] a`
text when present, else the element's own trimmed text.  The bare `a`
alternative subsumes the `TagLinkText a` descendant alternative, so the
embedded predicate is their union. -/
def getTagValue (valueEl : Option Elem) : String :=
  match valueEl with
  | none => ""
  | some v =>
    match qsel v (fun e =>
        (e.tag == "span" && hasAttrVal e "data-test-id" "loaded-device-name") ||
          e.tag == "a") with
    | some nested => jsTrim nested.textContent
    | none => jsTrim v.textContent

/-- Key/value of one tag row (tags.ts:40-45 / 59-64): both `TreeKey` and
`TreeValue` must be present; the key is the `title` attribute, else the
trimmed text, else empty. -/
def tagRowKV (row : Elem) : Option (String × String) :=
  match qsel row isTreeKey, qsel row isTreeValue with
  | some keyEl, some valueEl =>
    some (jsOrO (keyEl.getAttr "title") (jsTrim keyEl.textContent),
          getTagValue (some valueEl))
  | _, _ => none

/-- One iteration of the primary loops (`if (key && value) tags[key] = value`,
tags.ts:46-48, 65-67). -/
def addTagRowPrimary (tags : StrMap) (row : Elem) : StrMap :=
  match tagRowKV row with
  | some (k, v) => if k != "" && v != "" then jsObjSet tags k v else tags
  | none => tags

/-- One iteration of the highlight loop
(`if (key && value && !tags[key]) tags[key] = value`, tags.ts:82-84):
a highlight value is only added for keys not already truthy-bound. -/
def addTagRowHighlight (tags : StrMap) (row : Elem) : StrMap :=
  match tagRowKV row with
  | some (k, v) =>
    if k != "" && v != "" && !jsTruthyO (jsObjGet tags k) then jsObjSet tags k v
    else tags
  | none => tags

/-- The primary-phase mapping: the tag-tree rows of the tags section, folded
left-to-right (tags.ts:57-69). -/
def primaryTagsOf (sec : Elem) : StrMap :=
  (qselAll sec isTagTreeRow).foldl addTagRowPrimary []

/-- The cache-miss body of `extractTags` (tags.ts:29-90): with no tags
section, the highlight rows alone (with the unconditional-set guard); with a
section, primary tree rows first, then highlight rows of the whole document,
primary bindings winning.  An empty mapping becomes `null`. -/
def extractTagsFresh (doc : Elem) : Option StrMap :=
  match qsel doc isTagsSection with
  | none =>
    let tags := (qselAll doc isHighlightRow).foldl addTagRowPrimary []
    if tags.length > 0 then some tags else none
  | some sec =>
    let t2 := (qselAll doc isHighlightRow).foldl addTagRowHighlight
      (primaryTagsOf sec)
    if t2.length > 0 then some t2 else none

/-- The module-level cache of tags.ts (lines 9-10). -/
structure TagsState where
  tagsCache : Option StrMap := none
  tagsCacheValid : Bool := false
deriving Repr, DecidableEq

/-- `clearTagsCache` (tags.ts:15). -/
def clearTagsCache (_ : TagsState) : TagsState :=
  { tagsCache := none, tagsCacheValid := false }

/-- `extractTags` (tags.ts:23): return the cache when valid; otherwise query
the DOM and fill the cache. -/
def extractTags (doc : Elem) (s : TagsState) : Option StrMap × TagsState :=
  if s.tagsCacheValid then (s.tagsCache, s)
  else
    let r := extractTagsFresh doc
    (r, { tagsCache := r, tagsCacheValid := true })

/-- `extractEnvironment` (tags.ts:96): the `environment` tag when truthy,
else a dedicated element's trimmed text. -/
def extractEnvironment (doc : Elem) (s : TagsState) :
    Option String × TagsState :=
  let r := extractTags doc s
  let fromTags :=
    match r.1 with
    | some m => if jsTruthyO (jsObjGet m "environment") then jsObjGet m "environment" else none
    | none => none
  match fromTags with
  | some v => (some v, r.2)
  | none =>
    match qsel doc (fun e =>
        hasAttrVal e "data-test-id" "environment" ||
          classListContains e "environment-tag") with
    | some el => (some (jsTrim el.textContent), r.2)
    | none => (none, r.2)

/-- `extractRelease` (tags.ts:109): like `extractEnvironment` for the
`release` tag. -/
def extractRelease (doc : Elem) (s : TagsState) : Option String × TagsState :=
  let r := extractTags doc s
  let fromTags :=
    match r.1 with
    | some m => if jsTruthyO (jsObjGet m "release") then jsObjGet m "release" else none
    | none => none
  match fromTags with
  | some v => (some v, r.2)
  | none =>
    match qsel doc (fun e =>
        hasAttrVal e "data-test-id" "release" || classListContains e "release-tag") with
    | some el => (some (jsTrim el.textContent), r.2)
    | none => (none, r.2)

/-- `\w` of the level regex: ASCII letters, digits, underscore. -/
def isWordChar (c : Char) : Bool := c.isAlphanum || c = '_'

/-- The regex `/Level:\s*(\w+)/i`: scan for a case-insensitive `level:`,
skip whitespace, capture a nonempty word-character run; on capture failure
continue scanning (regex backtracking). -/
def levelRegexScan : List Char → Option String
  | [] => none
  | c :: rest =>
    if ((c :: rest).take 6).map Char.toLower = "level:".data then
      let after := ((c :: rest).drop 6).dropWhile Char.isWhitespace
      let w := after.takeWhile isWordChar
      if w.isEmpty then levelRegexScan rest else some ⟨w⟩
    else levelRegexScan rest

/-- `extractLevel` (tags.ts:122): the `level` tag when truthy, else the
`ColoredLine` indicator's visually-hidden `Level: <word>` text. -/
def extractLevel (doc : Elem) (s : TagsState) : Option String × TagsState :=
  let r := extractTags doc s
  let fromTags :=
    match r.1 with
    | some m => if jsTruthyO (jsObjGet m "level") then jsObjGet m "level" else none
    | none => none
  match fromTags with
  | some v => (some v, r.2)
  | none =>
    let viaIndicator :=
      match qsel doc (hasAttrVal · "data-sentry-element" "ColoredLine") with
      | some indicator =>
        match qsel indicator (hasAttrVal · "data-sentry-element" "VisuallyHidden") with
        | some hidden => levelRegexScan (jsTrim hidden.textContent).data
        | none => none
      | none => none
    (viaIndicator, r.2)

/-- The regex `/^(GET|POST|PUT|DELETE|PATCH|HEAD|OPTIONS)\s+\//`: the text
starts with an HTTP method, at least one whitespace character, then `/`. -/
def isMethodRoute (t : String) : Bool :=
  ["GET", "POST", "PUT", "DELETE", "PATCH", "HEAD", "OPTIONS"].any fun m =>
    (m.data).isPrefixOf t.data &&
      (let rest := t.data.drop m.length
       let ws := rest.takeWhile Char.isWhitespace
       !ws.isEmpty && (rest.drop ws.length).head? == some '/')

/-- The final fallback loop of `extractRoute` (tags.ts:166-178): the first
highlight row keyed `url` or `transaction` that has a `TreeValue`. -/
def routeHighlightScan : List Elem → Option String
  | [] => none
  | row :: rest =>
    match qsel row isTreeKey with
    | some keyEl =>
      let key := jsOrO (keyEl.getAttr "title") (jsTrim keyEl.textContent)
      if key == "url" || key == "transaction" then
        match qsel row isTreeValue with
        | some valueEl => some (jsTrim valueEl.textContent)
        | none => routeHighlightScan rest
      else routeHighlightScan rest
    | none => routeHighlightScan rest

/-- `extractRoute` (tags.ts:146): a `METHOD /path` span in the header grid
(returned without consulting the tags cache), else the `transaction`/`url`
tag, else the highlight-row fallback. -/
def extractRoute (doc : Elem) (s : TagsState) : Option String × TagsState :=
  let spanHit :=
    match qsel doc (hasAttrVal · "data-sentry-element" "HeaderGrid") with
    | some hg =>
      ((qselAll hg (fun e => e.tag == "span")).find?
          (fun sp => isMethodRoute (jsTrim sp.textContent))).map
        fun sp => jsTrim sp.textContent
    | none => none
  match spanHit with
  | some t => (some t, s)
  | none =>
    let r := extractTags doc s
    let fromTags :=
      match r.1 with
      | some m =>
        if jsTruthyO (jsObjGet m "transaction") then jsObjGet m "transaction"
        else if jsTruthyO (jsObjGet m "url") then jsObjGet m "url"
        else none
      | none => none
    match fromTags with
    | some t => (some t, r.2)
    | none => (routeHighlightScan (qselAll doc isHighlightRow), r.2)

/-! ### The aggregator (`extractAllData` of http-request.ts:71-99) -/

/-- The non-tags extractors, abstracted as pure functions of the document.
In the source they live in modules that cannot reference the tags cache
(tags.ts does not export it), so their only input is the DOM; quantifying
over this environment makes the aggregator theorems hold for *every*
behaviour of those extractors. -/
structure ExtractorEnv where
  projectName : Elem → String
  issueId : Elem → String
  shortId : Elem → Option String
  title : Elem → String
  errorMessage : Elem → Option String
  eventCount : Elem → String
  userCount : Elem → String
  priority : Elem → Option String
  status : Elem → Option String
  timestamps : Elem → Option Timestamps
  userInfo : Elem → Option StrMap
  stackTrace : Elem → Option StackTrace
  breadcrumbs : Elem → Option (List Breadcrumb)
  httpRequest : Elem → Option StrMap
  contexts : Elem → Option (List (String × StrMap))
  additionalData : Elem → Option (List (String × JsValue))

/-- `extractAllData` (http-request.ts:71): clear the tags cache, then invoke
every extractor and assemble the record.  The cache-touching extractors
(`extractRoute`, `extractEnvironment`, `extractRelease`, `extractLevel`,
`extractTags`) thread the cache state in the source's field order; `url` is
`window.location.href`. -/
def extractAllData (env : ExtractorEnv) (url : String) (doc : Elem)
    (s : TagsState) : SentryIssueData × TagsState :=
  let s0 := clearTagsCache s
  let route := extractRoute doc s0
  let environment := extractEnvironment doc route.2
  let release := extractRelease doc environment.2
  let level := extractLevel doc release.2
  let tags := extractTags doc level.2
  ({ url := url
     projectName := env.projectName doc
     issueId := env.issueId doc
     shortId := env.shortId doc
     title := env.title doc
     errorMessage := env.errorMessage doc
     route := route.1
     eventCount := env.eventCount doc
     userCount := env.userCount doc
     environment := environment.1
     release := release.1
     priority := env.priority doc
     status := env.status doc
     level := level.1
     timestamps := env.timestamps doc
     userInfo := env.userInfo doc
     stackTrace := env.stackTrace doc
     breadcrumbs := env.breadcrumbs doc
     httpRequest := env.httpRequest doc
     tags := tags.1
     contexts := env.contexts doc
     additionalData := env.additionalData doc }, tags.2)

/-- **C6.** The tags cache lifecycle: (i) a second `extractTags` call after a
first one returns the first call's result with the state unchanged, for *any*
document handed to the second call — it does not re-read the DOM; (ii) after
`clearTagsCache`, the next call re-queries the DOM (its result is the fresh
DOM query, independent of the prior cache state); (iii) the aggregator clears
the cache at the start of every pass, so a pass's entire output — record and
final cache — is independent of the incoming cache state: the cache is never
persisted across passes. -/
theorem spec_c6 :
    (∀ (doc doc' : Elem) (s : TagsState),
      extractTags doc' ((extractTags doc s).2) =
        ((extractTags doc s).1, (extractTags doc s).2)) ∧
    (∀ (doc : Elem) (s : TagsState),
      extractTags doc (clearTagsCache s) =
        (extractTagsFresh doc,
         { tagsCache := extractTagsFresh doc, tagsCacheValid := true })) ∧
    (∀ (env : ExtractorEnv) (url : String) (doc : Elem) (s s' : TagsState),
      extractAllData env url doc s = extractAllData env url doc s') := by
  refine ⟨?_, ?_, ?_⟩
  · intro doc doc' s
    by_cases h : s.tagsCacheValid = true
    · simp [extractTags, h]
    · simp [extractTags, h]
  · intro doc s
    simp [extractTags, clearTagsCache]
  · intro env url doc s s'
    simp [extractAllData, clearTagsCache]

/-- Reading back the key just written. -/
theorem jsObjGet_set_self (m : StrMap) (k v : String) :
    jsObjGet (jsObjSet m k v) k = some v := by
  induction m with
  | nil => simp [jsObjSet, jsObjGet]
  | cons kv rest ih =>
    by_cases h : kv.1 = k
    · simp [jsObjSet, jsObjGet, h]
    · simp [jsObjSet, jsObjGet, h, ih]

/-- Writing a different key does not change a read. -/
theorem jsObjGet_set_ne (m : StrMap) (k k' v : String) (h : k' ≠ k) :
    jsObjGet (jsObjSet m k' v) k = jsObjGet m k := by
  induction m with
  | nil => simp [jsObjSet, jsObjGet, h]
  | cons kv rest ih =>
    by_cases h2 : kv.1 = k'
    · simp [jsObjSet, jsObjGet, h2, h]
    · simp only [jsObjSet, h2, if_false]
      by_cases h3 : kv.1 = k
      · simp [jsObjGet, h3]
      · simp [jsObjGet, h3, ih]

/-- Every value bound by the primary loop is nonempty (the `key && value`
guard admits only truthy values). -/
theorem primary_values_nonempty (rows : List Elem) (m : StrMap)
    (hm : ∀ k v, jsObjGet m k = some v → v ≠ "") :
    ∀ k v, jsObjGet (rows.foldl addTagRowPrimary m) k = some v → v ≠ "" := by
  induction rows generalizing m with
  | nil => exact hm
  | cons row rest ih =>
    refine ih _ ?_
    intro k v h
    rw [addTagRowPrimary] at h
    rcases hkv : tagRowKV row with _ | ⟨k0, v0⟩
    · rw [hkv] at h; exact hm _ _ h
    · rw [hkv] at h
      dsimp only at h
      by_cases hg : (k0 != "" && v0 != "") = true
      · rw [if_pos hg] at h
        by_cases he : k0 = k
        · subst he
          rw [jsObjGet_set_self] at h
          cases h
          simp only [Bool.and_eq_true, bne_iff_ne, ne_eq] at hg
          exact hg.2
        · rw [jsObjGet_set_ne _ _ _ _ he] at h
          exact hm _ _ h
      · rw [if_neg hg] at h
        exact hm _ _ h

/-- The highlight loop never disturbs an existing truthy binding: primary
rows win on key collision. -/
theorem highlight_preserves (rows : List Elem) (m : StrMap) (k v : String)
    (hb : jsObjGet m k = some v) (hv : v ≠ "") :
    jsObjGet (rows.foldl addTagRowHighlight m) k = some v := by
  induction rows generalizing m with
  | nil => exact hb
  | cons row rest ih =>
    refine ih _ ?_
    rw [addTagRowHighlight]
    rcases hkv : tagRowKV row with _ | ⟨k0, v0⟩
    · exact hb
    · dsimp only
      by_cases hg : (k0 != "" && v0 != "" && !jsTruthyO (jsObjGet m k0)) = true
      · rw [if_pos hg]
        have hne : k0 ≠ k := by
          intro he
          subst he
          simp only [Bool.and_eq_true, Bool.not_eq_true] at hg
          rw [hb] at hg
          simp [jsTruthyO, hv] at hg
        rw [jsObjGet_set_ne _ _ _ _ hne]
        exact hb
      · rw [if_neg hg]
        exact hb

/-- A bound key means a nonempty mapping. -/
theorem ne_nil_of_jsObjGet_some {m : StrMap} {k v : String}
    (h : jsObjGet m k = some v) : m.length > 0 := by
  cases m with
  | nil => simp [jsObjGet] at h
  | cons kv rest => simp

/-- **C7.** When the tags section is present and the primary phase (the
tag-tree rows) binds a key, the merged result of `extractTags` binds that key
to the primary value — primary rows win over highlighted duplicate rows on
every key collision; highlight values are only added for unbound keys. -/
theorem spec_c7 (doc sec : Elem) (s : TagsState) (k v : String)
    (hs : s.tagsCacheValid = false)
    (hsec : qsel doc isTagsSection = some sec)
    (hk : jsObjGet (primaryTagsOf sec) k = some v) :
    ∃ m, (extractTags doc s).1 = some m ∧ jsObjGet m k = some v := by
  have hv : v ≠ "" :=
    primary_values_nonempty _ [] (by intro k' v' h; simp [jsObjGet] at h) k v hk
  have hkeep : jsObjGet
      ((qselAll doc isHighlightRow).foldl addTagRowHighlight (primaryTagsOf sec)) k =
        some v :=
    highlight_preserves _ _ _ _ hk hv
  have hlen := ne_nil_of_jsObjGet_some hkeep
  refine ⟨_, ?_, hkeep⟩
  simp [extractTags, hs, extractTagsFresh, hsec, hlen]

/-- A concrete document for the C7 witness: a tags section whose tag-tree row
binds `env ↦ prod`, and a highlighted duplicate row binding `env ↦ stale`. -/
def tagsDocW : Elem :=
  elemOf "html" [] ""
    [elemOf "section" [("id", "tags")] ""
       [elemOf "div" [("data-test-id", "tag-tree-row")] ""
          [elemOf "span" [("data-sentry-element", "TreeKey"), ("title", "env")] "" [],
           elemOf "span" [("data-sentry-element", "TreeValue")] "prod" []]],
     elemOf "div" [("data-test-id", "highlight-tag-row")] ""
       [elemOf "span" [("data-sentry-element", "TreeKey"), ("title", "env")] "" [],
        elemOf "span" [("data-sentry-element", "TreeValue")] "stale" []]]

/-- The tags section of `tagsDocW`. -/
def tagsSecW : Elem :=
  elemOf "section" [("id", "tags")] ""
    [elemOf "div" [("data-test-id", "tag-tree-row")] ""
       [elemOf "span" [("data-sentry-element", "TreeKey"), ("title", "env")] "" [],
        elemOf "span" [("data-sentry-element", "TreeValue")] "prod" []]]


/-- Witness for C7: on `tagsDocW`, the primary binding `env ↦ prod` survives
the highlighted duplicate `env ↦ stale`. -/
theorem spec_c7_witness :
    (({} : TagsState)).tagsCacheValid = false ∧
    qsel tagsDocW isTagsSection = some tagsSecW ∧
    jsObjGet (primaryTagsOf tagsSecW) "env" = some "prod" ∧
    ∃ m, (extractTags tagsDocW {}).1 = some m ∧ jsObjGet m "env" = some "prod" :=
  ⟨rfl, rfl, rfl, spec_c7 tagsDocW tagsSecW {} "env" "prod" rfl rfl rfl⟩

/-- **C8.** For an element whose value carries a `value-number` marker (and no
collapsible composite): text `"42"` yields the number `42`; text on which
`parseFloat` fails (`NaN`) yields that trimmed text unchanged as a string; in
every case the result is a (non-`NaN`) number or the text — never `NaN`.
The same holds for `parseValueElement` dispatching on the marker. -/
theorem spec_c8 (el numEl : Elem)
    (h1 : qsel el isCollapsibleValue = none)
    (h2 : qsel el isValueNumber = some numEl) :
    (jsTrim numEl.textContent = "42" →
      extractStructuredValue el = .num (.rat 42)) ∧
    (jsParseFloat (jsTrim numEl.textContent) = none →
      extractStructuredValue el = .str (jsTrim numEl.textContent)) ∧
    ((∃ n, extractStructuredValue el = .num n) ∨
      extractStructuredValue el = .str (jsTrim numEl.textContent)) ∧
    (∀ velem : Elem, velem.getAttr "data-test-id" = some "value-number" →
      (jsTrim velem.textContent = "42" → parseValueElement velem = .num (.rat 42)) ∧
      (jsParseFloat (jsTrim velem.textContent) = none →
        parseValueElement velem = .str (jsTrim velem.textContent))) := by
  have he : extractStructuredValue el =
      (match jsParseFloat (jsTrim numEl.textContent) with
       | none => JsValue.str (jsTrim numEl.textContent)
       | some n => JsValue.num n) := by
    rw [extractStructuredValue, h1, h2]
  refine ⟨?_, ?_, ?_, ?_⟩
  · intro h42
    rw [he, h42]
    have h : jsParseFloat "42" = some (.rat 42) := by
      simp [jsParseFloat, digitsToNat]
    rw [h]
  · intro hN
    rw [he, hN]
  · rcases hp : jsParseFloat (jsTrim numEl.textContent) with _ | n
    · right
      rw [he, hp]
    · left
      exact ⟨n, by rw [he, hp]⟩
  · intro velem hattr
    have hv : parseValueElement velem =
        (match jsParseFloat (jsTrim velem.textContent) with
         | none => JsValue.str (jsTrim velem.textContent)
         | some n => JsValue.num n) := by
      rw [parseValueElement, hattr]
      rfl
    refine ⟨?_, ?_⟩
    · intro h42
      rw [hv, h42]
      have h : jsParseFloat "42" = some (.rat 42) := by
        simp [jsParseFloat, digitsToNat]
      rw [h]
    · intro hN
      rw [hv, hN]

/-- A concrete element for the C8 witness: a table cell holding a
`value-number` marker with text `42`. -/
def numCellW : Elem :=
  elemOf "td" [] "" [elemOf "span" [("data-test-id", "value-number")] "42" []]

/-- The `value-number` marker of `numCellW`. -/
def numMarkW : Elem := elemOf "span" [("data-test-id", "value-number")] "42" []

/-- Witness for C8 at `numCellW` (and, via the `parseValueElement` conjunct, a
non-numeric marker text `"abc"`). -/
theorem spec_c8_witness :
    qsel numCellW isCollapsibleValue = none ∧
    qsel numCellW isValueNumber = some numMarkW ∧
    ((jsTrim numMarkW.textContent = "42" →
       extractStructuredValue numCellW = .num (.rat 42)) ∧
     (jsParseFloat (jsTrim numMarkW.textContent) = none →
       extractStructuredValue numCellW = .str (jsTrim numMarkW.textContent)) ∧
     ((∃ n, extractStructuredValue numCellW = .num n) ∨
       extractStructuredValue numCellW = .str (jsTrim numMarkW.textContent)) ∧
     (∀ velem : Elem, velem.getAttr "data-test-id" = some "value-number" →
       (jsTrim velem.textContent = "42" → parseValueElement velem = .num (.rat 42)) ∧
       (jsParseFloat (jsTrim velem.textContent) = none →
         parseValueElement velem = .str (jsTrim velem.textContent)))) ∧
    extractStructuredValue numCellW = .num (.rat 42) ∧
    parseValueElement (elemOf "span" [("data-test-id", "value-number")] "abc" []) =
      .str "abc" := by
  have h := spec_c8 numCellW numMarkW rfl rfl
  refine ⟨rfl, rfl, h, h.1 rfl, ?_⟩
  have h2 := (h.2.2.2 (elemOf "span" [("data-test-id", "value-number")] "abc" [])
      rfl).2 rfl
  simpa using h2
